import Mathlib

/-!
Shallow embedding of `scripts/transformation_matrix/get_calibration_data.py` and
proofs about it.

The script decomposes 4x4 rigid-body sensor extrinsics into translation plus
roll/pitch/yaw.  Matrices are embedded as `Matrix (Fin n) (Fin n) ℝ`; the Python
dictionary holding the output records is embedded as an ordered association list
with replace-on-existing-key insertion (Python `dict` semantics).  `np.arctan2`
is embedded as the exact two-argument arctangent on ℝ.
-/

open Real Matrix

/-- Exact mathematics of `np.arctan2 y x`: the angle of the point `(x, y)`,
in the principal range `(-π, π]`, split by the sign of `x` as in the standard
definition of the two-argument arctangent. -/
noncomputable def atan2 (y x : ℝ) : ℝ :=
  if 0 < x then arctan (y / x)
  else if x < 0 then
    if 0 ≤ y then arctan (y / x) + π else arctan (y / x) - π
  else
    if 0 < y then π / 2 else if y < 0 then -(π / 2) else 0

/-- Output record with keys `x, y, z, roll, pitch, yaw` (the dictionary shape
produced by `get_empty_dict`). -/
structure PoseDict where
  x : ℝ
  y : ℝ
  z : ℝ
  roll : ℝ
  pitch : ℝ
  yaw : ℝ

/-- `get_empty_dict()`: all six fields initialized to `0.0`. -/
def get_empty_dict : PoseDict :=
  { x := 0, y := 0, z := 0, roll := 0, pitch := 0, yaw := 0 }

/-- `invert_T(T)` from the source: reads `R = T[:3,:3]` and `t = T[:3,3]`,
starts from `np.eye(4)` and writes `T_inv[:3,:3] = R.T`,
`T_inv[:3,3] = -R.T @ t`.  Entry `(i, j)` with `i, j < 3` is `R.T[i,j] = T[j,i]`;
entry `(i, 3)` with `i < 3` is `-(R.T @ t)[i] = -∑ k, T[k,i] * T[k,3]`; the
bottom row keeps the `np.eye(4)` values `0, 0, 0, 1`. -/
def invert_T (T : Matrix (Fin 4) (Fin 4) ℝ) : Matrix (Fin 4) (Fin 4) ℝ :=
  Matrix.of fun i j =>
    if (i : ℕ) < 3 then
      if (j : ℕ) < 3 then T j i
      else -(∑ k : Fin 3, T (Fin.castSucc k) i * T (Fin.castSucc k) 3)
    else
      if (j : ℕ) < 3 then 0 else 1

/-- The rotation block `T[:3,:3]` of a 4x4 matrix. -/
def rotOf (T : Matrix (Fin 4) (Fin 4) ℝ) : Matrix (Fin 3) (Fin 3) ℝ :=
  Matrix.of fun i j => T (Fin.castSucc i) (Fin.castSucc j)

/-- The translation column `T[:3,3]` of a 4x4 matrix, kept as a 3x1 block. -/
def transOf (T : Matrix (Fin 4) (Fin 4) ℝ) : Matrix (Fin 3) (Fin 1) ℝ :=
  Matrix.of fun i _ => T (Fin.castSucc i) 3

/-- `rpy_from_R(R)` from the source: `cos_beta = sqrt(R[0,0]^2 + R[1,0]^2)`;
if `cos_beta > 1e-6` return
`(roll, pitch, yaw) = (atan2(R[1,0], R[0,0]), atan2(-R[2,0], cos_beta), atan2(R[2,1], R[2,2]))`,
otherwise (gimbal lock)
`(roll, pitch, yaw) = (atan2(-R[1,2], R[0,2]), atan2(-R[2,0], cos_beta), 0.0)`.
The triple is returned in the source's order `(roll, pitch, yaw)`. -/
noncomputable def rpy_from_R (R : Matrix (Fin 3) (Fin 3) ℝ) : ℝ × ℝ × ℝ :=
  let cos_beta := Real.sqrt (R 0 0 ^ 2 + R 1 0 ^ 2)
  if cos_beta > 1e-6 then
    (atan2 (R 1 0) (R 0 0), atan2 (-(R 2 0)) cos_beta, atan2 (R 2 1) (R 2 2))
  else
    (atan2 (-(R 1 2)) (R 0 2), atan2 (-(R 2 0)) cos_beta, 0)

/-- `xyz_rpy_from_T(v_T_sensor)` from the source: translation from `T[:3,3]`,
rotation block `T[:3,:3]` decomposed by `rpy_from_R`, assembled into the
output record. -/
noncomputable def xyz_rpy_from_T (v_T_sensor : Matrix (Fin 4) (Fin 4) ℝ) : PoseDict :=
  let t := fun i : Fin 3 => v_T_sensor (Fin.castSucc i) 3
  let R := rotOf v_T_sensor
  let rpy := rpy_from_R R
  { get_empty_dict with
      x := t 0, y := t 1, z := t 2, roll := rpy.1, pitch := rpy.2.1, yaw := rpy.2.2 }

/-- One parsed sensor entry: its `extrinsics` mapping as an ordered list of
(direction label, 4x4 matrix) pairs.  The source indexes
`list(extrinsics.keys())[0]`, so well-formed entries are nonempty. -/
structure SensorEntry where
  extrinsics : List (String × Matrix (Fin 4) (Fin 4) ℝ)
  extrinsics_nonempty : extrinsics ≠ []

/-- The first direction label and its matrix, `list(extrinsics.keys())[0]`. -/
def firstTransform (e : SensorEntry) : String × Matrix (Fin 4) (Fin 4) ℝ :=
  e.extrinsics.head e.extrinsics_nonempty

/-- Python dictionary assignment `m[k] = v` on an ordered association list:
replace the value in place when the key is present, otherwise append. -/
def dictInsert (m : List (String × PoseDict)) (k : String) (v : PoseDict) :
    List (String × PoseDict) :=
  if m.any fun p => p.1 == k then m.map fun p => if p.1 == k then (k, v) else p
  else m ++ [(k, v)]

/-- Loop body of `get_info` for one input key: skip `"state"`; otherwise take
the first direction label, derive `(name, v_T_sensor) = ("vTc_" + key, true)`
when the label is `"cTv"` and `(label + "_" + key, false)` otherwise, invert the
matrix exactly when `v_T_sensor` is true, decompose, and store the record under
the derived name. -/
noncomputable def get_info_step (xyzrpy : List (String × PoseDict))
    (kv : String × SensorEntry) : List (String × PoseDict) :=
  if kv.1 = "state" then xyzrpy
  else
    let transform := (firstTransform kv.2).1
    let nameInv : String × Bool :=
      if transform = "cTv" then ("vTc_" ++ kv.1, true)
      else (transform ++ "_" ++ kv.1, false)
    let T0 := (firstTransform kv.2).2
    let T := if nameInv.2 then invert_T T0 else T0
    dictInsert xyzrpy nameInv.1 (xyz_rpy_from_T T)

/-- The `get_info` loop: fold the per-key body over the parsed input mapping in
iteration order, starting from the empty `xyzrpy` dictionary.  (File reading
and the final `json.dump` wrapper are I/O glue around this mapping.) -/
noncomputable def get_info (items : List (String × SensorEntry)) :
    List (String × PoseDict) :=
  items.foldl get_info_step []

/-- Rotation by angle `a` about the fixed X axis. -/
noncomputable def Rx (a : ℝ) : Matrix (Fin 3) (Fin 3) ℝ :=
  !![1, 0, 0; 0, Real.cos a, -Real.sin a; 0, Real.sin a, Real.cos a]

/-- Rotation by angle `a` about the fixed Y axis. -/
noncomputable def Ry (a : ℝ) : Matrix (Fin 3) (Fin 3) ℝ :=
  !![Real.cos a, 0, Real.sin a; 0, 1, 0; -Real.sin a, 0, Real.cos a]

/-- Rotation by angle `a` about the fixed Z axis. -/
noncomputable def Rz (a : ℝ) : Matrix (Fin 3) (Fin 3) ℝ :=
  !![Real.cos a, -Real.sin a, 0; Real.sin a, Real.cos a, 0; 0, 0, 1]

/-- Rotation built from the decomposer's extrinsic X-Y-Z convention: rotate
about the fixed X axis, then the fixed Y axis, then the fixed Z axis, with the
three returned slots of `rpy_from_R` attached to Z, Y, X respectively (this is
the factorization `Rz roll * Ry pitch * Rx yaw` that the regular branch of
`rpy_from_R` inverts). -/
noncomputable def R_from_rpy (roll pitch yaw : ℝ) : Matrix (Fin 3) (Fin 3) ℝ :=
  Rz roll * Ry pitch * Rx yaw

/-- The index equivalence splitting `Fin 4` into the 3x3 block part and the
last row/column. -/
def e34 : Fin 3 ⊕ Fin 1 ≃ Fin 4 := finSumFinEquiv

/-- Statement-by-statement model of the body of `invert_T`: the local `T_inv`
starts as `np.eye(4)`, receives the rotation block, then the translation
column; the function's two array objects after the body are the pair
`(T, final T_inv)` - no statement of the source assigns into `T`. -/
def invert_T_locals (T : Matrix (Fin 4) (Fin 4) ℝ) :
    Matrix (Fin 4) (Fin 4) ℝ × Matrix (Fin 4) (Fin 4) ℝ :=
  let T_inv0 : Matrix (Fin 4) (Fin 4) ℝ := 1
  let T_inv1 : Matrix (Fin 4) (Fin 4) ℝ := Matrix.of fun i j =>
    if (i : ℕ) < 3 ∧ (j : ℕ) < 3 then T j i else T_inv0 i j
  let T_inv2 : Matrix (Fin 4) (Fin 4) ℝ := Matrix.of fun i j =>
    if (i : ℕ) < 3 ∧ (j : ℕ) = 3 then
      -(∑ k : Fin 3, T (Fin.castSucc k) i * T (Fin.castSucc k) 3)
    else T_inv1 i j
  (T, T_inv2)

/-- The record name `get_info` derives for a non-reserved key. -/
def derivedName (k : String) (e : SensorEntry) : String :=
  if (firstTransform e).1 = "cTv" then "vTc_" ++ k else (firstTransform e).1 ++ "_" ++ k

/-- The matrix that is decomposed for a non-reserved key (inverted exactly for
the `"cTv"` label). -/
noncomputable def derivedMatrix (e : SensorEntry) : Matrix (Fin 4) (Fin 4) ℝ :=
  if (firstTransform e).1 = "cTv" then invert_T (firstTransform e).2
  else (firstTransform e).2

/-- The pure-translation example transform of the specification's end-to-end
test, carrying translation `(1, 2, 3)`. -/
def Tex : Matrix (Fin 4) (Fin 4) ℝ :=
  !![1, 0, 0, 1; 0, 1, 0, 2; 0, 0, 1, 3; 0, 0, 0, 1]

/-- A matrix agreeing with `Tex` on the first three rows but with a garbage
bottom row. -/
def Tex2 : Matrix (Fin 4) (Fin 4) ℝ :=
  !![1, 0, 0, 1; 0, 1, 0, 2; 0, 0, 1, 3; 5, 6, 7, 8]

/-- Sensor entry whose single extrinsics label is the sensor-to-vehicle code
`"cTv"`, with matrix `Tex`. -/
def camCTV : SensorEntry := ⟨[("cTv", Tex)], List.cons_ne_nil _ _⟩

/-- Sensor entry whose single extrinsics label is the vehicle-to-sensor code
`"vTc"`, with matrix `Tex`. -/
def camVTC : SensorEntry := ⟨[("vTc", Tex)], List.cons_ne_nil _ _⟩

/-- Sensor entry whose single extrinsics label is outside the two documented
direction codes. -/
def camFOO : SensorEntry := ⟨[("foo", Tex)], List.cons_ne_nil _ _⟩

/-! ### Properties of the two-argument arctangent -/

theorem atan2_of_pos {y x : ℝ} (hx : 0 < x) : atan2 y x = arctan (y / x) := by
  unfold atan2
  rw [if_pos hx]

theorem atan2_scale {y x : ℝ} (k : ℝ) (hk : 0 < k) : atan2 (k * y) (k * x) = atan2 y x := by
  have hd : k * y / (k * x) = y / x := mul_div_mul_left _ _ hk.ne'
  have hx1 : (0 < k * x) ↔ (0 < x) := ⟨fun h => by nlinarith, fun h => mul_pos hk h⟩
  have hx2 : (k * x < 0) ↔ (x < 0) := ⟨fun h => by nlinarith, fun h => by nlinarith⟩
  have hy1 : (0 ≤ k * y) ↔ (0 ≤ y) := ⟨fun h => by nlinarith, fun h => mul_nonneg hk.le h⟩
  have hy2 : (0 < k * y) ↔ (0 < y) := ⟨fun h => by nlinarith, fun h => mul_pos hk h⟩
  have hy3 : (k * y < 0) ↔ (y < 0) := ⟨fun h => by nlinarith, fun h => by nlinarith⟩
  unfold atan2
  simp only [hd, hx1, hx2, hy1, hy2, hy3]

theorem atan2_sin_cos {θ : ℝ} (h1 : -π < θ) (h2 : θ ≤ π) :
    atan2 (Real.sin θ) (Real.cos θ) = θ := by
  unfold atan2
  rcases lt_trichotomy 0 (Real.cos θ) with hc | hc | hc
  · rw [if_pos hc]
    have hθ1 : -(π / 2) < θ := by
      by_contra hle
      push_neg at hle
      have h := Real.cos_nonpos_of_pi_div_two_le_of_le
        (show π / 2 ≤ -θ by linarith) (show -θ ≤ π + π / 2 by linarith)
      rw [Real.cos_neg] at h
      linarith
    have hθ2 : θ < π / 2 := by
      by_contra hle
      push_neg at hle
      have h := Real.cos_nonpos_of_pi_div_two_le_of_le hle (by linarith [Real.pi_pos])
      linarith
    rw [← Real.tan_eq_sin_div_cos, Real.arctan_tan hθ1 hθ2]
  · rw [if_neg (by rw [← hc]; exact lt_irrefl 0), if_neg (by rw [← hc]; exact lt_irrefl 0)]
    rcases Real.cos_eq_zero_iff.mp hc.symm with ⟨k, hk⟩
    have hpi := Real.pi_pos
    have h2' : (2 * (k : ℝ) + 1) * (π / 2) ≤ 2 * (π / 2) := by rw [hk] at h2; linarith
    have h4 : (2 * (k : ℝ) + 1) ≤ 2 := le_of_mul_le_mul_right h2' (half_pos hpi)
    have h1' : (-2 : ℝ) * (π / 2) < (2 * (k : ℝ) + 1) * (π / 2) := by rw [hk] at h1; linarith
    have h5 : (-2 : ℝ) < 2 * (k : ℝ) + 1 := (mul_lt_mul_right (half_pos hpi)).mp h1'
    have h4i : 2 * k + 1 ≤ 2 := by exact_mod_cast h4
    have h5i : (-2 : ℤ) < 2 * k + 1 := by exact_mod_cast h5
    have hk0 : k = 0 ∨ k = -1 := by omega
    rcases hk0 with h | h
    · subst h
      have hθ : θ = π / 2 := by rw [hk]; push_cast; ring
      rw [hθ, Real.sin_pi_div_two]
      norm_num
    · subst h
      have hθ : θ = -(π / 2) := by rw [hk]; push_cast; ring
      rw [hθ, Real.sin_neg, Real.sin_pi_div_two]
      norm_num
  · rw [if_neg (by linarith), if_pos hc]
    by_cases hs : 0 ≤ Real.sin θ
    · rw [if_pos hs]
      have hθ0 : 0 ≤ θ := by
        by_contra hlt
        push_neg at hlt
        have := Real.sin_neg_of_neg_of_neg_pi_lt hlt h1
        linarith
      have hθ1 : π / 2 < θ := by
        by_contra hle
        push_neg at hle
        have := Real.cos_nonneg_of_neg_pi_div_two_le_of_le
          (show -(π / 2) ≤ θ by linarith) hle
        linarith
      have htan : Real.sin θ / Real.cos θ = Real.tan (θ - π) := by
        rw [Real.tan_periodic.sub_eq, Real.tan_eq_sin_div_cos]
      rw [htan, Real.arctan_tan (by linarith) (by linarith)]
      ring
    · rw [if_neg hs]
      push_neg at hs
      have hθ0 : θ < 0 := by
        by_contra hge
        push_neg at hge
        have := Real.sin_nonneg_of_nonneg_of_le_pi hge h2
        linarith
      have hθ1 : θ < -(π / 2) := by
        by_contra hle
        push_neg at hle
        have := Real.cos_nonneg_of_neg_pi_div_two_le_of_le hle (show θ ≤ π / 2 by linarith)
        linarith
      have htan : Real.sin θ / Real.cos θ = Real.tan (θ + π) := by
        rw [Real.tan_periodic θ, Real.tan_eq_sin_div_cos]
      rw [htan, Real.arctan_tan (by linarith) (by linarith)]
      ring

theorem atan2_nonneg_mem {y x : ℝ} (hx : 0 ≤ x) :
    -(π / 2) ≤ atan2 y x ∧ atan2 y x ≤ π / 2 := by
  have hpi := Real.pi_pos
  unfold atan2
  rcases eq_or_lt_of_le hx with hx0 | hxp
  · rw [if_neg (by rw [← hx0]; exact lt_irrefl 0), if_neg (by rw [← hx0]; exact lt_irrefl 0)]
    by_cases hy : 0 < y
    · rw [if_pos hy]
      constructor <;> linarith
    · rw [if_neg hy]
      by_cases hy2 : y < 0
      · rw [if_pos hy2]
        constructor <;> linarith
      · rw [if_neg hy2]
        constructor <;> linarith
  · rw [if_pos hxp]
    exact ⟨(Real.neg_pi_div_two_lt_arctan _).le, (Real.arctan_lt_pi_div_two _).le⟩

theorem atan2_zero_of_pos {x : ℝ} (hx : 0 < x) : atan2 0 x = 0 := by
  rw [atan2_of_pos hx, zero_div, Real.arctan_zero]

theorem atan2_one_zero : atan2 1 0 = π / 2 := by
  norm_num [atan2]

/-! ### Unfolding lemmas for the decomposer -/

theorem rpy_from_R_eq (R : Matrix (Fin 3) (Fin 3) ℝ) :
    rpy_from_R R =
      if Real.sqrt (R 0 0 ^ 2 + R 1 0 ^ 2) > 1e-6 then
        (atan2 (R 1 0) (R 0 0),
          atan2 (-(R 2 0)) (Real.sqrt (R 0 0 ^ 2 + R 1 0 ^ 2)),
          atan2 (R 2 1) (R 2 2))
      else
        (atan2 (-(R 1 2)) (R 0 2),
          atan2 (-(R 2 0)) (Real.sqrt (R 0 0 ^ 2 + R 1 0 ^ 2)), 0) := rfl

theorem rpy_entries (m00 m01 m02 m10 m11 m12 m20 m21 m22 : ℝ) :
    rpy_from_R !![m00, m01, m02; m10, m11, m12; m20, m21, m22] =
      if Real.sqrt (m00 ^ 2 + m10 ^ 2) > 1e-6 then
        (atan2 m10 m00, atan2 (-m20) (Real.sqrt (m00 ^ 2 + m10 ^ 2)), atan2 m21 m22)
      else
        (atan2 (-m12) m02, atan2 (-m20) (Real.sqrt (m00 ^ 2 + m10 ^ 2)), 0) := rfl

/-! ### Quantitative bound placing small pitches in the regular branch -/

theorem micro_lt_cos {p : ℝ} (hp : |p| < 89 * π / 180) : (1e-6 : ℝ) < Real.cos p := by
  have hpi := Real.pi_pos
  have hmono : Real.cos (89 * π / 180) < Real.cos |p| :=
    Real.cos_lt_cos_of_nonneg_of_le_pi (abs_nonneg p) (by linarith) hp
  have heq : Real.cos (89 * π / 180) = Real.sin (π / 180) := by
    rw [← Real.sin_pi_div_two_sub]
    congr 1
    ring
  have h1 : (0 : ℝ) < π / 180 := by linarith
  have h2 : π / 180 ≤ 1 := by linarith [Real.pi_le_four]
  have h3 := Real.sin_gt_sub_cube h1 h2
  have h4 : π / 180 < 0.0175 := by linarith [Real.pi_lt_d2]
  have h5 : (1 : ℝ) / 60 < π / 180 := by linarith [Real.pi_gt_three]
  have hu3 : (π / 180) ^ 3 < 0.0175 ^ 3 := pow_lt_pow_left₀ h4 h1.le (by norm_num)
  have hconst : (1e-6 : ℝ) < 1 / 60 - 0.0175 ^ 3 / 4 := by norm_num
  have habs : Real.cos |p| = Real.cos p := Real.cos_abs p
  linarith

/-! ### Products of the axis rotations -/

theorem Rz_mul_Ry_mul_Rx (a b c : ℝ) :
    Rz a * Ry b * Rx c =
      !![Real.cos a * Real.cos b,
         Real.cos a * Real.sin b * Real.sin c - Real.sin a * Real.cos c,
         Real.cos a * Real.sin b * Real.cos c + Real.sin a * Real.sin c;
         Real.sin a * Real.cos b,
         Real.sin a * Real.sin b * Real.sin c + Real.cos a * Real.cos c,
         Real.sin a * Real.sin b * Real.cos c - Real.cos a * Real.sin c;
         -Real.sin b, Real.cos b * Real.sin c, Real.cos b * Real.cos c] := by
  unfold Rz Ry Rx
  rw [Matrix.mul_fin_three, Matrix.mul_fin_three]
  ext i j
  fin_cases i <;> fin_cases j <;> simp <;> ring

theorem Ry_pi_div_two_mul_Rx (d : ℝ) :
    Ry (π / 2) * Rx d =
      !![0, Real.sin d, Real.cos d; 0, Real.cos d, -Real.sin d; -1, 0, 0] := by
  unfold Ry Rx
  rw [Matrix.mul_fin_three]
  rw [Real.cos_pi_div_two, Real.sin_pi_div_two]
  ext i j
  fin_cases i <;> fin_cases j <;> simp

theorem Rz_Ry_pi_div_two_Rx (a c : ℝ) :
    Rz a * Ry (π / 2) * Rx c =
      !![0, Real.sin (c - a), Real.cos (c - a);
         0, Real.cos (c - a), -Real.sin (c - a);
         -1, 0, 0] := by
  rw [Rz_mul_Ry_mul_Rx, Real.cos_pi_div_two, Real.sin_pi_div_two, Real.sin_sub, Real.cos_sub]
  ext i j
  fin_cases i <;> fin_cases j <;> simp <;> ring

theorem rpy_gimbal_literal (d : ℝ) (h1 : -π < d) (h2 : d ≤ π) :
    rpy_from_R !![0, Real.sin d, Real.cos d; 0, Real.cos d, -Real.sin d; -1, 0, 0] =
      (d, π / 2, 0) := by
  rw [rpy_entries]
  have h0 : ((0 : ℝ) ^ 2 + 0 ^ 2) = 0 := by norm_num
  rw [h0, Real.sqrt_zero, if_neg (by norm_num), neg_neg, neg_neg,
    atan2_sin_cos h1 h2, atan2_one_zero]

/-! ### Claim theorems about the decomposer -/

/-- C3: `rpy_from_R` computes `cos_pitch = sqrt(R[0,0]^2 + R[1,0]^2)` and, exactly
when `cos_pitch > 1e-6`, returns `roll = atan2(R[1,0], R[0,0])`,
`pitch = atan2(-R[2,0], cos_pitch)` and `yaw = atan2(R[2,1], R[2,2])`; otherwise it
returns the gimbal-lock triple (whose yaw is the constant `0`). -/
theorem c3_regular_case (R : Matrix (Fin 3) (Fin 3) ℝ) :
    rpy_from_R R =
      if Real.sqrt (R 0 0 ^ 2 + R 1 0 ^ 2) > 1e-6 then
        (atan2 (R 1 0) (R 0 0),
          atan2 (-(R 2 0)) (Real.sqrt (R 0 0 ^ 2 + R 1 0 ^ 2)),
          atan2 (R 2 1) (R 2 2))
      else
        (atan2 (-(R 1 2)) (R 0 2),
          atan2 (-(R 2 0)) (Real.sqrt (R 0 0 ^ 2 + R 1 0 ^ 2)), 0) :=
  rpy_from_R_eq R

/-- C9: for every real 3x3 input, the pitch returned by `rpy_from_R` lies in the
closed interval `[-π/2, π/2]`, in both branches, because it is an `atan2` whose
second argument is the nonnegative square root `sqrt(R[0,0]^2 + R[1,0]^2)`. -/
theorem c9_pitch_in_range (R : Matrix (Fin 3) (Fin 3) ℝ) :
    -(π / 2) ≤ (rpy_from_R R).2.1 ∧ (rpy_from_R R).2.1 ≤ π / 2 := by
  rw [rpy_from_R_eq]
  by_cases h : Real.sqrt (R 0 0 ^ 2 + R 1 0 ^ 2) > 1e-6
  · rw [if_pos h]
    exact atan2_nonneg_mem (Real.sqrt_nonneg _)
  · rw [if_neg h]
    exact atan2_nonneg_mem (Real.sqrt_nonneg _)

/-- C2: on every matrix in the gimbal-lock branch (`sqrt(R[0,0]^2 + R[1,0]^2) ≤ 1e-6`)
`rpy_from_R` returns exactly `yaw = 0`, `roll = atan2(-R[1,2], R[0,2])` and
`pitch = atan2(-R[2,0], cos_pitch)`; and for a rotation constructed with pitch
exactly `+90°` (extrinsic X then Y then Z, Z angle `a`, X angle `c`), the whole
rotation collapses to the single combined angle `c - a` about X after the 90°
Y rotation, and `rpy_from_R` returns yaw exactly `0` and roll equal to that
combined rotation angle. -/
theorem c2_gimbal_lock (R : Matrix (Fin 3) (Fin 3) ℝ) (a c : ℝ)
    (hR : Real.sqrt (R 0 0 ^ 2 + R 1 0 ^ 2) ≤ 1e-6)
    (h1 : -π < c - a) (h2 : c - a ≤ π) :
    rpy_from_R R =
        (atan2 (-(R 1 2)) (R 0 2),
          atan2 (-(R 2 0)) (Real.sqrt (R 0 0 ^ 2 + R 1 0 ^ 2)), 0) ∧
      Rz a * Ry (π / 2) * Rx c = Ry (π / 2) * Rx (c - a) ∧
      rpy_from_R (Rz a * Ry (π / 2) * Rx c) = (c - a, π / 2, 0) := by
  refine ⟨?_, ?_, ?_⟩
  · rw [rpy_from_R_eq, if_neg (not_lt.mpr hR)]
  · rw [Rz_Ry_pi_div_two_Rx, Ry_pi_div_two_mul_Rx]
  · rw [Rz_Ry_pi_div_two_Rx]
    exact rpy_gimbal_literal (c - a) h1 h2

/-- Witness for C2 at the concrete gimbal-lock rotation with Z angle `0`, pitch
`+90°` and X angle `1`. -/
theorem c2_gimbal_lock_witness :
    rpy_from_R (Rz 0 * Ry (π / 2) * Rx 1) = (1 - 0, π / 2, 0) :=
  (c2_gimbal_lock !![0, 0, 1; 0, 1, 0; -1, 0, 0] 0 1
    (by norm_num [Real.sqrt_zero])
    (by have := Real.pi_gt_three; linarith)
    (by have := Real.pi_gt_three; linarith)).2.2

/-- C5: for every angle triple with `|pitch| < 89°` and roll, yaw in the principal
range `(-π, π]` of `atan2`, building the rotation by the decomposer's extrinsic
X-Y-Z convention (`R_from_rpy`) and decomposing it with `rpy_from_R` returns the
original `(roll, pitch, yaw)` triple exactly. -/
theorem c5_decomposition_roundtrip (r p y : ℝ) (hp : |p| < 89 * π / 180)
    (hr1 : -π < r) (hr2 : r ≤ π) (hy1 : -π < y) (hy2 : y ≤ π) :
    rpy_from_R (R_from_rpy r p y) = (r, p, y) := by
  have hpi := Real.pi_pos
  have hmicro : (1e-6 : ℝ) < Real.cos p := micro_lt_cos hp
  have hcp : (0 : ℝ) < Real.cos p := lt_trans (by norm_num) hmicro
  have hp2 : -π < p ∧ p < π := by
    have := abs_lt.mp hp
    constructor <;> [linarith; linarith]
  unfold R_from_rpy
  rw [Rz_mul_Ry_mul_Rx, rpy_entries]
  have hsq : (Real.cos r * Real.cos p) ^ 2 + (Real.sin r * Real.cos p) ^ 2 = Real.cos p ^ 2 := by
    have h := Real.sin_sq_add_cos_sq r
    calc (Real.cos r * Real.cos p) ^ 2 + (Real.sin r * Real.cos p) ^ 2
        = (Real.sin r ^ 2 + Real.cos r ^ 2) * Real.cos p ^ 2 := by ring
      _ = Real.cos p ^ 2 := by rw [h, one_mul]
  rw [hsq, Real.sqrt_sq hcp.le, if_pos hmicro, neg_neg]
  refine Prod.ext ?_ (Prod.ext ?_ ?_)
  · show atan2 (Real.sin r * Real.cos p) (Real.cos r * Real.cos p) = r
    rw [mul_comm (Real.sin r) (Real.cos p), mul_comm (Real.cos r) (Real.cos p),
      atan2_scale _ hcp, atan2_sin_cos hr1 hr2]
  · show atan2 (Real.sin p) (Real.cos p) = p
    rw [atan2_sin_cos hp2.1 hp2.2.le]
  · show atan2 (Real.cos p * Real.sin y) (Real.cos p * Real.cos y) = y
    rw [atan2_scale _ hcp, atan2_sin_cos hy1 hy2]

/-- Witness for C5 at the concrete triple `(1, 0, -1)`. -/
theorem c5_decomposition_roundtrip_witness :
    rpy_from_R (R_from_rpy 1 0 (-1)) = (1, 0, -1) :=
  c5_decomposition_roundtrip 1 0 (-1)
    (by rw [abs_zero]; have := Real.pi_pos; positivity)
    (by have := Real.pi_gt_three; linarith)
    (by have := Real.pi_gt_three; linarith)
    (by have := Real.pi_gt_three; linarith)
    (by have := Real.pi_gt_three; linarith)

/-! ### Block structure of the rigid-transform inverter -/

theorem toBlocks_of_bottom_row {T : Matrix (Fin 4) (Fin 4) ℝ}
    (h0 : T 3 0 = 0) (h1 : T 3 1 = 0) (h2 : T 3 2 = 0) (h3 : T 3 3 = 1) :
    T.submatrix ⇑e34 ⇑e34 =
      Matrix.fromBlocks (rotOf T) (transOf T) (0 : Matrix (Fin 1) (Fin 3) ℝ)
        (1 : Matrix (Fin 1) (Fin 1) ℝ) := by
  ext i j
  rcases i with i | i <;> rcases j with j | j
  · rfl
  · fin_cases j
    rfl
  · fin_cases i <;> fin_cases j
    · exact h0
    · exact h1
    · exact h2
  · fin_cases i <;> fin_cases j
    show T 3 3 = (1 : Matrix (Fin 1) (Fin 1) ℝ) 0 0
    rw [h3]
    rfl

theorem invert_submatrix (T : Matrix (Fin 4) (Fin 4) ℝ) :
    (invert_T T).submatrix ⇑e34 ⇑e34 =
      Matrix.fromBlocks (rotOf T)ᵀ (-((rotOf T)ᵀ * transOf T))
        (0 : Matrix (Fin 1) (Fin 3) ℝ) (1 : Matrix (Fin 1) (Fin 1) ℝ) := by
  ext i j
  rcases i with i | i <;> rcases j with j | j
  · show (if ((Fin.castSucc i : Fin 4) : ℕ) < 3 then
        if ((Fin.castSucc j : Fin 4) : ℕ) < 3 then T (Fin.castSucc j) (Fin.castSucc i)
        else -(∑ k : Fin 3, T (Fin.castSucc k) (Fin.castSucc i) * T (Fin.castSucc k) 3)
      else if ((Fin.castSucc j : Fin 4) : ℕ) < 3 then 0 else 1) = (rotOf T)ᵀ i j
    rw [if_pos (by simpa using i.isLt), if_pos (by simpa using j.isLt)]
    rfl
  · fin_cases j
    show (if ((Fin.castSucc i : Fin 4) : ℕ) < 3 then
        if (((3 : Fin 4) : ℕ)) < 3 then T 3 (Fin.castSucc i)
        else -(∑ k : Fin 3, T (Fin.castSucc k) (Fin.castSucc i) * T (Fin.castSucc k) 3)
      else if (((3 : Fin 4) : ℕ)) < 3 then 0 else 1) =
      (-((rotOf T)ᵀ * transOf T)) i 0
    rw [if_pos (by simpa using i.isLt), if_neg (by decide)]
    simp [Matrix.mul_apply, rotOf, transOf, Matrix.neg_apply, Matrix.transpose_apply]
  · fin_cases i <;> fin_cases j <;> rfl
  · fin_cases i <;> fin_cases j <;> rfl

theorem rotOf_invert (T : Matrix (Fin 4) (Fin 4) ℝ) :
    rotOf (invert_T T) = (rotOf T)ᵀ := by
  ext i j
  show (if ((Fin.castSucc i : Fin 4) : ℕ) < 3 then
      if ((Fin.castSucc j : Fin 4) : ℕ) < 3 then T (Fin.castSucc j) (Fin.castSucc i)
      else -(∑ k : Fin 3, T (Fin.castSucc k) (Fin.castSucc i) * T (Fin.castSucc k) 3)
    else if ((Fin.castSucc j : Fin 4) : ℕ) < 3 then 0 else 1) = (rotOf T)ᵀ i j
  rw [if_pos (by simpa using i.isLt), if_pos (by simpa using j.isLt)]
  rfl

theorem transOf_invert (T : Matrix (Fin 4) (Fin 4) ℝ) :
    transOf (invert_T T) = -((rotOf T)ᵀ * transOf T) := by
  ext i j
  fin_cases j
  show (if ((Fin.castSucc i : Fin 4) : ℕ) < 3 then
      if (((3 : Fin 4) : ℕ)) < 3 then T 3 (Fin.castSucc i)
      else -(∑ k : Fin 3, T (Fin.castSucc k) (Fin.castSucc i) * T (Fin.castSucc k) 3)
    else if (((3 : Fin 4) : ℕ)) < 3 then 0 else 1) = (-((rotOf T)ᵀ * transOf T)) i 0
  rw [if_pos (by simpa using i.isLt), if_neg (by decide)]
  simp [Matrix.mul_apply, rotOf, transOf, Matrix.neg_apply, Matrix.transpose_apply]

theorem invert_T_bottom (T : Matrix (Fin 4) (Fin 4) ℝ) :
    invert_T T 3 0 = 0 ∧ invert_T T 3 1 = 0 ∧ invert_T T 3 2 = 0 ∧ invert_T T 3 3 = 1 :=
  ⟨rfl, rfl, rfl, rfl⟩

theorem submatrix_e34_inj {M N : Matrix (Fin 4) (Fin 4) ℝ}
    (h : M.submatrix ⇑e34 ⇑e34 = N.submatrix ⇑e34 ⇑e34) : M = N := by
  ext i j
  have h' := congrFun (congrFun h (e34.symm i)) (e34.symm j)
  simpa [Matrix.submatrix_apply] using h'

theorem rotOf_one : rotOf (1 : Matrix (Fin 4) (Fin 4) ℝ) = 1 := by
  ext i j
  show (1 : Matrix (Fin 4) (Fin 4) ℝ) (Fin.castSucc i) (Fin.castSucc j) =
    (1 : Matrix (Fin 3) (Fin 3) ℝ) i j
  simp [Matrix.one_apply, Fin.castSucc_inj]

/-- C4: for every valid rigid transform (orthonormal rotation block of
determinant one, bottom row `[0,0,0,1]`), `invert_T` is an involution and
`invert_T T * T` is the 4x4 identity. -/
theorem c4_inverse_roundtrip (T : Matrix (Fin 4) (Fin 4) ℝ)
    (horth : (rotOf T)ᵀ * rotOf T = 1) (hdet : (rotOf T).det = 1)
    (h0 : T 3 0 = 0) (h1 : T 3 1 = 0) (h2 : T 3 2 = 0) (h3 : T 3 3 = 1) :
    invert_T (invert_T T) = T ∧ invert_T T * T = 1 := by
  have horth' : rotOf T * (rotOf T)ᵀ = 1 := Matrix.mul_eq_one_comm.mp horth
  constructor
  · apply submatrix_e34_inj
    rw [invert_submatrix (invert_T T), rotOf_invert, transOf_invert, Matrix.transpose_transpose]
    have harr : -((rotOf T) * (-((rotOf T)ᵀ * transOf T))) = transOf T := by
      rw [Matrix.mul_neg, neg_neg, ← Matrix.mul_assoc, horth', Matrix.one_mul]
    rw [harr]
    exact (toBlocks_of_bottom_row h0 h1 h2 h3).symm
  · apply submatrix_e34_inj
    have hmul : (invert_T T * T).submatrix ⇑e34 ⇑e34 =
        (invert_T T).submatrix ⇑e34 ⇑e34 * T.submatrix ⇑e34 ⇑e34 :=
      (Matrix.submatrix_mul_equiv (invert_T T) T ⇑e34 e34 ⇑e34).symm
    rw [hmul, invert_submatrix, toBlocks_of_bottom_row h0 h1 h2 h3, Matrix.fromBlocks_multiply,
      Matrix.submatrix_one_equiv]
    simp [horth, Matrix.fromBlocks_one]

/-- Witness for C4 at the identity transform. -/
theorem c4_inverse_roundtrip_witness :
    invert_T (invert_T (1 : Matrix (Fin 4) (Fin 4) ℝ)) = 1 ∧
      invert_T (1 : Matrix (Fin 4) (Fin 4) ℝ) * 1 = 1 :=
  c4_inverse_roundtrip 1
    (by rw [rotOf_one]; simp)
    (by rw [rotOf_one]; simp)
    (Matrix.one_apply_ne (by decide))
    (Matrix.one_apply_ne (by decide))
    (Matrix.one_apply_ne (by decide))
    (Matrix.one_apply_eq 3)

/-- C10: the body of `invert_T` leaves the input array `T` unchanged (its
statement sequence, modelled by `invert_T_locals`, writes only the local
matrix freshly created by `np.eye(4)` and indeed computes `invert_T`), it
reads only the first three rows of `T`, and the bottom row of the returned
matrix is `[0, 0, 0, 1]` regardless of the bottom row of the input. -/
theorem c10_fresh_output (T : Matrix (Fin 4) (Fin 4) ℝ) :
    (invert_T_locals T).1 = T ∧
      (invert_T_locals T).2 = invert_T T ∧
      (invert_T T 3 0 = 0 ∧ invert_T T 3 1 = 0 ∧ invert_T T 3 2 = 0 ∧ invert_T T 3 3 = 1) ∧
      ∀ T' : Matrix (Fin 4) (Fin 4) ℝ,
        (∀ i j : Fin 4, (i : ℕ) < 3 → T i j = T' i j) → invert_T T = invert_T T' := by
  refine ⟨rfl, ?_, invert_T_bottom T, ?_⟩
  · ext i j
    show (if (i : ℕ) < 3 ∧ (j : ℕ) = 3 then
        -(∑ k : Fin 3, T (Fin.castSucc k) i * T (Fin.castSucc k) 3)
      else if (i : ℕ) < 3 ∧ (j : ℕ) < 3 then T j i
      else (1 : Matrix (Fin 4) (Fin 4) ℝ) i j) =
      (if (i : ℕ) < 3 then
        if (j : ℕ) < 3 then T j i
        else -(∑ k : Fin 3, T (Fin.castSucc k) i * T (Fin.castSucc k) 3)
      else if (j : ℕ) < 3 then 0 else 1)
    have hj4 := j.isLt
    have hi4 := i.isLt
    by_cases hi : (i : ℕ) < 3
    · by_cases hj : (j : ℕ) < 3
      · have hj3 : ¬((j : ℕ) = 3) := by omega
        rw [if_neg (by tauto), if_pos ⟨hi, hj⟩, if_pos hi, if_pos hj]
      · have hj3 : (j : ℕ) = 3 := by omega
        rw [if_pos ⟨hi, hj3⟩, if_pos hi, if_neg hj]
    · have hii : ¬((i : ℕ) < 3 ∧ (j : ℕ) = 3) := by tauto
      have hii2 : ¬((i : ℕ) < 3 ∧ (j : ℕ) < 3) := by tauto
      rw [if_neg hii, if_neg hii2, if_neg hi]
      by_cases hj : (j : ℕ) < 3
      · rw [if_pos hj, Matrix.one_apply_ne]
        intro hij
        rw [hij] at hi
        exact hi hj
      · rw [if_neg hj]
        have hieq : i = j := by
          apply Fin.ext
          omega
        rw [hieq, Matrix.one_apply_eq]
  · intro T' hag
    ext i j
    show (if (i : ℕ) < 3 then
        if (j : ℕ) < 3 then T j i
        else -(∑ k : Fin 3, T (Fin.castSucc k) i * T (Fin.castSucc k) 3)
      else if (j : ℕ) < 3 then 0 else 1) =
      (if (i : ℕ) < 3 then
        if (j : ℕ) < 3 then T' j i
        else -(∑ k : Fin 3, T' (Fin.castSucc k) i * T' (Fin.castSucc k) 3)
      else if (j : ℕ) < 3 then 0 else 1)
    by_cases hi : (i : ℕ) < 3
    · by_cases hj : (j : ℕ) < 3
      · rw [if_pos hi, if_pos hi, if_pos hj, if_pos hj, hag j i hj]
      · rw [if_pos hi, if_pos hi, if_neg hj, if_neg hj]
        congr 1
        apply Finset.sum_congr rfl
        intro k _
        rw [hag (Fin.castSucc k) i (by simpa using k.isLt),
          hag (Fin.castSucc k) 3 (by simpa using k.isLt)]
    · rw [if_neg hi, if_neg hi]

/-- Witness for C10: the bottom rows of `Tex` and `Tex2` differ, yet
`invert_T` agrees on them. -/
theorem c10_fresh_output_witness : invert_T Tex = invert_T Tex2 :=
  (c10_fresh_output Tex).2.2.2 Tex2 (by
    intro i j hij
    fin_cases i
    · fin_cases j <;> simp [Tex, Tex2, Matrix.vecHead, Matrix.vecTail]
    · fin_cases j <;> simp [Tex, Tex2, Matrix.vecHead, Matrix.vecTail]
    · fin_cases j <;> simp [Tex, Tex2, Matrix.vecHead, Matrix.vecTail]
    · exact absurd hij (by decide))

/-! ### Evaluation helpers for concrete matrices and the orchestrator -/

theorem val_three4 : ((3 : Fin 4) : ℕ) = 3 := rfl

theorem castSucc_zero4 : (Fin.castSucc (0 : Fin 3) : Fin 4) = 0 := rfl

theorem castSucc_one4 : (Fin.castSucc (1 : Fin 3) : Fin 4) = 1 := rfl

theorem castSucc_two4 : (Fin.castSucc (2 : Fin 3) : Fin 4) = 2 := rfl

theorem xyz_rpy_from_T_eq (M : Matrix (Fin 4) (Fin 4) ℝ) :
    xyz_rpy_from_T M =
      { x := M 0 3, y := M 1 3, z := M 2 3,
        roll := (rpy_from_R (rotOf M)).1, pitch := (rpy_from_R (rotOf M)).2.1,
        yaw := (rpy_from_R (rotOf M)).2.2 } := rfl

theorem xyz_rpy_translation (x y z : ℝ) :
    xyz_rpy_from_T !![1, 0, 0, x; 0, 1, 0, y; 0, 0, 1, z; 0, 0, 0, 1] =
      { x := x, y := y, z := z, roll := 0, pitch := 0, yaw := 0 } := by
  rw [xyz_rpy_from_T_eq]
  have hrot : rotOf !![1, 0, 0, x; 0, 1, 0, y; 0, 0, 1, z; 0, 0, 0, 1] =
      !![(1 : ℝ), 0, 0; 0, 1, 0; 0, 0, 1] := by
    ext i j
    fin_cases i <;> fin_cases j <;>
      simp [rotOf, castSucc_zero4, castSucc_one4, castSucc_two4,
        Matrix.vecHead, Matrix.vecTail]
  rw [hrot]
  have hrpy : rpy_from_R !![(1 : ℝ), 0, 0; 0, 1, 0; 0, 0, 1] = (0, 0, 0) := by
    rw [rpy_entries, show ((1 : ℝ) ^ 2 + 0 ^ 2 : ℝ) = 1 by norm_num, Real.sqrt_one,
      if_pos (by norm_num : (1 : ℝ) > 1e-6), neg_zero, atan2_zero_of_pos one_pos]
  rw [hrpy]
  rfl

theorem invert_T_Tex :
    invert_T Tex = !![1, 0, 0, -1; 0, 1, 0, -2; 0, 0, 1, -3; 0, 0, 0, 1] := by
  ext i j
  fin_cases i <;> fin_cases j <;>
    simp [invert_T, Tex, Fin.sum_univ_three, val_three4, castSucc_zero4, castSucc_one4,
      castSucc_two4, Matrix.vecHead, Matrix.vecTail] <;> norm_num

theorem string_append_cancel {s t u : String} (h : s ++ t = s ++ u) : t = u := by
  have hd := congrArg String.data h
  rw [String.data_append, String.data_append] at hd
  exact String.ext (List.append_cancel_left hd)

theorem get_info_step_state (acc : List (String × PoseDict)) (e : SensorEntry) :
    get_info_step acc ("state", e) = acc := by
  simp [get_info_step]

theorem get_info_step_sensor (acc : List (String × PoseDict)) (k : String) (e : SensorEntry)
    (hk : ¬(k = "state")) :
    get_info_step acc (k, e) =
      dictInsert acc (derivedName k e) (xyz_rpy_from_T (derivedMatrix e)) := by
  by_cases hc : (firstTransform e).1 = "cTv" <;>
    simp [get_info_step, hk, hc, derivedName, derivedMatrix]

theorem dictInsert_fresh (m : List (String × PoseDict)) (k : String) (v : PoseDict)
    (h : ∀ q ∈ m, q.1 ≠ k) : dictInsert m k v = m ++ [(k, v)] := by
  unfold dictInsert
  rw [if_neg]
  intro hany
  rw [List.any_eq_true] at hany
  obtain ⟨p, hp, hbeq⟩ := hany
  exact h p hp (by simpa using hbeq)

theorem get_info_singleton (k : String) (e : SensorEntry) (hk : ¬(k = "state")) :
    get_info [(k, e)] = [(derivedName k e, xyz_rpy_from_T (derivedMatrix e))] := by
  show get_info_step [] (k, e) = _
  rw [get_info_step_sensor [] k e hk, dictInsert_fresh]
  · rfl
  · intro q hq
    exact absurd hq (List.not_mem_nil q)

theorem foldl_filter_state (items : List (String × SensorEntry)) :
    ∀ acc : List (String × PoseDict),
      items.foldl get_info_step acc =
        (items.filter fun p => p.1 != "state").foldl get_info_step acc := by
  induction items with
  | nil => intro acc; rfl
  | cons p rest ih =>
    obtain ⟨k, e⟩ := p
    intro acc
    by_cases hk : k = "state"
    · subst hk
      rw [List.foldl_cons, get_info_step_state]
      have hfil : ((("state", e) :: rest).filter fun p => p.1 != "state") =
          rest.filter fun p => p.1 != "state" := by
        simp
      rw [hfil, ih acc]
    · have hfil : (((k, e) :: rest).filter fun p => p.1 != "state") =
          (k, e) :: (rest.filter fun p => p.1 != "state") := by
        simp [hk]
      rw [hfil, List.foldl_cons, List.foldl_cons, ih]

theorem foldl_len (items : List (String × SensorEntry)) :
    ∀ acc : List (String × PoseDict),
      (∀ p ∈ items, p.1 ≠ "state" → ∀ q ∈ acc, q.1 ≠ derivedName p.1 p.2) →
      ((items.filter fun p => p.1 != "state").map fun p => derivedName p.1 p.2).Nodup →
      (items.foldl get_info_step acc).length =
        acc.length + ((items.filter fun p => p.1 != "state")).length := by
  induction items with
  | nil =>
    intro acc _ _
    simp
  | cons p rest ih =>
    obtain ⟨k, e⟩ := p
    intro acc hfresh hnodup
    by_cases hk : k = "state"
    · subst hk
      rw [List.foldl_cons, get_info_step_state]
      have hfil : ((("state", e) :: rest).filter fun p => p.1 != "state") =
          rest.filter fun p => p.1 != "state" := by
        simp
      rw [hfil] at hnodup ⊢
      exact ih acc (fun p hp => hfresh p (List.mem_cons_of_mem _ hp)) hnodup
    · have hfil : (((k, e) :: rest).filter fun p => p.1 != "state") =
          (k, e) :: (rest.filter fun p => p.1 != "state") := by
        simp [hk]
      rw [hfil] at hnodup ⊢
      rw [List.foldl_cons, get_info_step_sensor acc k e hk,
        dictInsert_fresh acc _ _ (hfresh (k, e) (List.mem_cons_self _ _) hk)]
      rw [List.map_cons, List.nodup_cons] at hnodup
      have hfresh' : ∀ p ∈ rest, p.1 ≠ "state" →
          ∀ q ∈ acc ++ [(derivedName k e, xyz_rpy_from_T (derivedMatrix e))],
            q.1 ≠ derivedName p.1 p.2 := by
        intro p hp hpne q hq
        rcases List.mem_append.mp hq with hq | hq
        · exact hfresh p (List.mem_cons_of_mem _ hp) hpne q hq
        · rcases List.mem_singleton.mp hq with rfl
          intro hcontra
          have hcontra' : derivedName k e = derivedName p.1 p.2 := hcontra
          apply hnodup.1
          rw [hcontra']
          apply List.mem_map_of_mem
          rw [List.mem_filter]
          exact ⟨hp, by simpa using hpne⟩
      have := ih (acc ++ [(derivedName k e, xyz_rpy_from_T (derivedMatrix e))]) hfresh' hnodup.2
      rw [this, List.length_append, List.length_cons]
      simp
      omega

/-! ### Claim theorems about the orchestrator -/

/-- C1 counterexample: on the claim's own input - one sensor `"cam0"` whose sole
extrinsics label is `"vTc"` with the pure-translation matrix `Tex` - `get_info`
stores the record `"vTc_cam0"` with the raw translation `(1, 2, 3)`, which is
not the inverted pose `(-1, -2, -3)` asserted by the claim (the code inverts
only for the label `"cTv"`). -/
theorem c1_direction_counterexample :
    get_info [("cam0", camVTC)] =
        [("vTc_cam0", { x := 1, y := 2, z := 3, roll := 0, pitch := 0, yaw := 0 })] ∧
      ({ x := 1, y := 2, z := 3, roll := 0, pitch := 0, yaw := 0 } : PoseDict) ≠
        { x := -1, y := -2, z := -3, roll := 0, pitch := 0, yaw := 0 } := by
  constructor
  · rw [get_info_singleton "cam0" camVTC (by simp)]
    have hname : derivedName "cam0" camVTC = "vTc_cam0" := rfl
    have hmat : derivedMatrix camVTC = Tex := rfl
    rw [hname, hmat, show Tex = !![(1 : ℝ), 0, 0, 1; 0, 1, 0, 2; 0, 0, 1, 3; 0, 0, 0, 1] from rfl,
      xyz_rpy_translation]
  · intro h
    have := congrArg PoseDict.x h
    norm_num at this

/-- C1 (amended): the record named `vTc_cam0` with the inverted translation
`(-1, -2, -3)` is produced for the label `"cTv"` (the sensor-to-vehicle form
that the code inverts), while the label `"vTc"` yields the same record name but
the raw, un-inverted translation `(1, 2, 3)`; and in general, for every sensor
key and entry, the transform is inverted and the record renamed with the
alternate prefix `vTc_<key>` exactly when the sole label equals `"cTv"`, while
every other label is used as-is under the name `<label>_<key>`. -/
theorem c1_direction_example :
    (get_info [("cam0", camCTV)] =
        [("vTc_cam0", { x := -1, y := -2, z := -3, roll := 0, pitch := 0, yaw := 0 })] ∧
      get_info [("cam0", camVTC)] =
        [("vTc_cam0", { x := 1, y := 2, z := 3, roll := 0, pitch := 0, yaw := 0 })]) ∧
      ∀ (k : String) (e : SensorEntry) (label : String) (T : Matrix (Fin 4) (Fin 4) ℝ),
        ¬(k = "state") → firstTransform e = (label, T) →
        (label = "cTv" →
          get_info [(k, e)] = [("vTc_" ++ k, xyz_rpy_from_T (invert_T T))]) ∧
        (¬(label = "cTv") →
          get_info [(k, e)] = [(label ++ "_" ++ k, xyz_rpy_from_T T)]) := by
  refine ⟨⟨?_, ?_⟩, ?_⟩
  · rw [get_info_singleton "cam0" camCTV (by simp)]
    have hname : derivedName "cam0" camCTV = "vTc_cam0" := rfl
    have hmat : derivedMatrix camCTV = invert_T Tex := rfl
    rw [hname, hmat, invert_T_Tex, xyz_rpy_translation]
  · rw [get_info_singleton "cam0" camVTC (by simp)]
    have hname : derivedName "cam0" camVTC = "vTc_cam0" := rfl
    have hmat : derivedMatrix camVTC = Tex := rfl
    rw [hname, hmat, show Tex = !![(1 : ℝ), 0, 0, 1; 0, 1, 0, 2; 0, 0, 1, 3; 0, 0, 0, 1] from rfl,
      xyz_rpy_translation]
  · intro k e label T hk hfirst
    constructor
    · intro hc
      rw [get_info_singleton k e hk]
      simp [derivedName, derivedMatrix, hfirst, hc]
    · intro hc
      rw [get_info_singleton k e hk]
      simp [derivedName, derivedMatrix, hfirst, hc]

/-- Witness for the universal part of C1 at the concrete key `"lidar1"` and the
non-`"cTv"` label `"foo"`: the raw matrix's decomposition is stored under
`foo_lidar1`. -/
theorem c1_direction_example_witness :
    get_info [("lidar1", camFOO)] = [("foo" ++ "_" ++ "lidar1", xyz_rpy_from_T Tex)] :=
  (c1_direction_example.2 "lidar1" camFOO "foo" Tex (by simp) rfl).2 (by simp)

/-- C6: on any input whose keys are distinct (a JSON object) and whose sensor
entries carry one of the two documented direction labels, `get_info` produces
no record from the reserved `"state"` key and exactly one record per
non-`"state"` key. -/
theorem c6_state_excluded (items : List (String × SensorEntry))
    (hkeys : (items.map Prod.fst).Nodup)
    (hlabels : ∀ p ∈ items, p.1 ≠ "state" →
      (firstTransform p.2).1 = "vTc" ∨ (firstTransform p.2).1 = "cTv") :
    get_info items = get_info (items.filter fun p => p.1 != "state") ∧
      (get_info items).length = (items.filter fun p => p.1 != "state").length := by
  constructor
  · exact foldl_filter_state items []
  · have hmap : ((items.filter fun p => p.1 != "state").map fun p => derivedName p.1 p.2) =
        ((items.filter fun p => p.1 != "state").map fun p => "vTc_" ++ p.1) := by
      apply List.map_congr_left
      intro p hp
      rcases List.mem_filter.mp hp with ⟨hmem, hne⟩
      have hne' : p.1 ≠ "state" := by simpa using hne
      rcases hlabels p hmem hne' with h | h <;> simp [derivedName, h]
    have hnodup :
        ((items.filter fun p => p.1 != "state").map fun p => derivedName p.1 p.2).Nodup := by
      rw [hmap]
      have h1 : ((items.filter fun p => p.1 != "state").map Prod.fst).Nodup :=
        hkeys.sublist ((List.filter_sublist items).map Prod.fst)
      have h2 : ((items.filter fun p => p.1 != "state").map fun p => "vTc_" ++ p.1) =
          ((items.filter fun p => p.1 != "state").map Prod.fst).map fun s => "vTc_" ++ s := by
        rw [List.map_map]
        rfl
      rw [h2]
      exact h1.map fun a b h => string_append_cancel h
    have := foldl_len items [] (by intro p _ _ q hq; exact absurd hq (List.not_mem_nil q)) hnodup
    simpa using this

/-- Witness for C6: `"state"` plus two valid sensors produce exactly two
records. -/
theorem c6_state_excluded_witness :
    (get_info [("state", camVTC), ("cam0", camVTC), ("lidar0", camCTV)]).length = 2 := by
  have h := (c6_state_excluded [("state", camVTC), ("cam0", camVTC), ("lidar0", camCTV)]
    (by simp)
    (by
      intro p hp hne
      rcases List.mem_cons.mp hp with rfl | hp
      · exact absurd rfl hne
      · rcases List.mem_cons.mp hp with rfl | hp
        · exact Or.inl rfl
        · rcases List.mem_cons.mp hp with rfl | hp
          · exact Or.inr rfl
          · exact absurd hp (List.not_mem_nil p))).2
  rw [h]
  simp

/-- C7: decomposing the 4x4 identity matrix yields the all-zero pose record. -/
theorem c7_identity_pose :
    xyz_rpy_from_T (1 : Matrix (Fin 4) (Fin 4) ℝ) =
      { x := 0, y := 0, z := 0, roll := 0, pitch := 0, yaw := 0 } := by
  rw [xyz_rpy_from_T_eq, rotOf_one]
  have hone : (1 : Matrix (Fin 3) (Fin 3) ℝ) = !![(1 : ℝ), 0, 0; 0, 1, 0; 0, 0, 1] := by
    ext i j
    fin_cases i <;> fin_cases j <;>
      simp [Matrix.one_apply, Matrix.vecHead, Matrix.vecTail]
  have hrpy : rpy_from_R (1 : Matrix (Fin 3) (Fin 3) ℝ) = (0, 0, 0) := by
    rw [hone, rpy_entries, show ((1 : ℝ) ^ 2 + 0 ^ 2 : ℝ) = 1 by norm_num, Real.sqrt_one,
      if_pos (by norm_num : (1 : ℝ) > 1e-6), neg_zero, atan2_zero_of_pos one_pos]
  rw [hrpy]
  have hx : (1 : Matrix (Fin 4) (Fin 4) ℝ) 0 3 = 0 := Matrix.one_apply_ne (by decide)
  have hy : (1 : Matrix (Fin 4) (Fin 4) ℝ) 1 3 = 0 := Matrix.one_apply_ne (by decide)
  have hz : (1 : Matrix (Fin 4) (Fin 4) ℝ) 2 3 = 0 := Matrix.one_apply_ne (by decide)
  rw [hx, hy, hz]

/-- C8: for a single sensor key, `get_info` inverts the matrix and uses the
alternate name `vTc_<key>` exactly when the first label equals `"cTv"`; any
other label (also ones outside the two documented codes) stores the
decomposition of the raw matrix under `<label>_<key>`. -/
theorem c8_label_dispatch (k : String) (e : SensorEntry) (label : String)
    (T : Matrix (Fin 4) (Fin 4) ℝ) (hk : ¬(k = "state"))
    (hfirst : firstTransform e = (label, T)) :
    get_info [(k, e)] =
      if label = "cTv" then [("vTc_" ++ k, xyz_rpy_from_T (invert_T T))]
      else [(label ++ "_" ++ k, xyz_rpy_from_T T)] := by
  rw [get_info_singleton k e hk]
  by_cases hc : label = "cTv" <;>
    simp [derivedName, derivedMatrix, hfirst, hc]

/-- Witness for C8 at the undocumented label `"foo"`: the raw matrix is stored
under `foo_cam0`. -/
theorem c8_label_dispatch_witness :
    get_info [("cam0", camFOO)] =
      if ("foo" : String) = "cTv" then
        [("vTc_" ++ "cam0", xyz_rpy_from_T (invert_T Tex))]
      else [("foo" ++ "_" ++ "cam0", xyz_rpy_from_T Tex)] :=
  c8_label_dispatch "cam0" camFOO "foo" Tex (by simp) rfl
